import Mathlib

set_option maxRecDepth 8192

/-!
Verification of the asciify image-to-text pipeline (src/main.go).

The embedding models the core pipeline: luminance computation, nearest-neighbor
resize, dimension resolution (explicit "WxH" spec / scale factor / identity),
glyph lookup in a character ramp, and row-major text assembly.

Numeric conventions:
* Go `color.Color.RGBA()` channel values are `Nat` in `[0, 65535]`.
* Go `float64` arithmetic is modelled two ways: over `ℚ` (exact real
  arithmetic, the idealized semantics the spec describes), and — where the
  claims are sensitive to rounding — by `F64`, an exact mantissa/exponent
  model of IEEE-754 binary64 round-to-nearest-even (with unbounded exponent
  range, which coincides with binary64 for the magnitudes occurring here:
  no overflow and no subnormals arise).
* Go `int(f)` conversion truncates toward zero: `ratTrunc` / `F64.trunc`.
-/

/-- A color sample as returned by Go's `color.Color.RGBA()`:
four 16-bit channels (each in `[0, 65535]`). -/
structure Pixel where
  r : Nat
  g : Nat
  b : Nat
  a : Nat
deriving DecidableEq, Repr

/-- The zero value `color.NRGBA{}`. -/
def defaultPixel : Pixel := ⟨0, 0, 0, 0⟩

/-- A decoded image: known width and height plus a total pixel accessor,
modelling `image.Image` via `Bounds().Size()` and `At`. -/
structure Image where
  width : Nat
  height : Nat
  sample : Nat → Nat → Pixel

/-- Truncation toward zero of a rational, modelling Go's `int(f)`
conversion from `float64` to `int`. -/
def ratTrunc (q : ℚ) : Int :=
  if 0 ≤ q then ⌊q⌋ else ⌈q⌉

/-! ### An exact model of binary64 arithmetic

Values are `m * 2^e` with a 53-bit mantissa.  All operations below are pure
`Nat`/`Int` arithmetic, so concrete instances reduce in the kernel. -/

/-- Bit length of `n` (fuel-based recursion so that the kernel can evaluate
it; fuel 128 covers every quantity occurring in this development). -/
def nbitsAux : Nat → Nat → Nat
  | 0, _ => 0
  | fuel + 1, n => if n = 0 then 0 else nbitsAux fuel (n / 2) + 1

/-- Bit length of `n`: the least `k` with `n < 2^k` (for `n < 2^128`). -/
def nbits (n : Nat) : Nat := nbitsAux 128 n

/-- Is `2^k ≤ a / b` (as exact rationals)? -/
def pow2le (k : Int) (a b : Nat) : Bool :=
  if 0 ≤ k then b * 2 ^ k.toNat ≤ a else b ≤ a * 2 ^ (-k).toNat

/-- A nonnegative binary64 value `m * 2^e`; nonzero values are kept
normalized with `2^52 ≤ m < 2^53`. -/
structure F64 where
  m : Nat
  e : Int
deriving DecidableEq, Repr

/-- `2^k` for a signed exponent `k`, as a rational. -/
def ipow2 (k : Int) : ℚ :=
  if 0 ≤ k then ((2 ^ k.toNat : Nat) : ℚ) else 1 / ((2 ^ (-k).toNat : Nat) : ℚ)

/-- The exact rational value denoted by an `F64`. -/
def F64.toRat (f : F64) : ℚ := (f.m : ℚ) * ipow2 f.e

/-- Round the exact ratio `a / b` (with `b ≥ 1`) to 53 significant bits,
round-to-nearest ties-to-even: the binary64 result of an exact division. -/
def roundPos (a b : Nat) : F64 :=
  if a = 0 then ⟨0, 0⟩
  else
    let d : Int := (nbits a : Int) - (nbits b : Int)
    let k : Int := if pow2le d a b then d else d - 1
    let e : Int := k - 52
    let num : Nat := if 0 ≤ e then a else a * 2 ^ (-e).toNat
    let den : Nat := if 0 ≤ e then b * 2 ^ e.toNat else b
    let q := num / den
    let r := num % den
    let m := if 2 * r < den then q
             else if den < 2 * r then q + 1
             else if q % 2 = 0 then q else q + 1
    if m = 2 ^ 53 then ⟨2 ^ 52, e + 1⟩ else ⟨m, e⟩

/-- Conversion `float64(n)` of a small integer (exact for `n < 2^53`). -/
def F64.ofNat (n : Nat) : F64 := roundPos n 1

/-- Correctly rounded binary64 division, Go's `/` on `float64`. -/
def fdiv (x y : F64) : F64 :=
  let r := roundPos x.m y.m
  ⟨r.m, r.e + x.e - y.e⟩

/-- Correctly rounded binary64 multiplication, Go's `*` on `float64`. -/
def fmul (x y : F64) : F64 :=
  let r := roundPos (x.m * y.m) 1
  ⟨r.m, r.e + x.e + y.e⟩

/-- Go's `int(f)` for a nonnegative binary64 value: truncation. -/
def F64.trunc (f : F64) : Int :=
  if 0 ≤ f.e then ((f.m * 2 ^ f.e.toNat : Nat) : Int)
  else ((f.m / 2 ^ (-f.e).toNat : Nat) : Int)

/-! ### The pipeline -/

/-- `luminance` (src/main.go:35-43): discards the alpha component of
`RGBA()`, normalizes each channel by `math.MaxUint16 = 65535` and returns
`0.299*red + 0.587*green + 0.114*blue`, here in exact rational arithmetic:
`(299*r + 587*g + 114*b) / 65535000`. -/
def luminance (p : Pixel) : ℚ :=
  ((299 * p.r + 587 * p.g + 114 * p.b : Nat) : ℚ) / 65535000

/-- The glyph index `int(float64(len(charset)) * lum)` computed in
`main` (src/main.go:176); no clamping is applied. -/
def glyphIndex (n : Nat) (lum : ℚ) : Int :=
  ratTrunc ((n : ℚ) * lum)

/-- The indexing `charset[int(float64(len(charset))*lum)]`
(src/main.go:176); `none` models the Go runtime panic
"index out of range". -/
def lookupGlyph (charset : List Char) (lum : ℚ) : Option Char :=
  let i := glyphIndex charset.length lum
  if 0 ≤ i then charset[i.toNat]? else none

/-- The `"ascii"` entry of the `ChararacterSets` map (src/main.go:22-24). -/
def asciiCharset : List Char :=
  (".\x27\x60^\",:;Il!i><~+_-?][\x7d\x7b1)(|\\/tfjrxnuvczXYUJCLQ0OZmwqpdbkhao*#MW&8%B@$").toList

/-- Source coordinate for one axis of `resize` (src/main.go:51-52), exact
real-arithmetic reading of `int((float64(x) / float64(w)) * float64(ws))`. -/
def sampleCoord (x w ws : Nat) : Int :=
  ratTrunc ((x : ℚ) / (w : ℚ) * (ws : ℚ))

/-- Source coordinate for one axis of `resize` with the two float64
roundings of the Go code made explicit:
`int((float64(x) / float64(w)) * float64(ws))`. -/
def sampleCoordF (x w ws : Nat) : Int :=
  (fmul (fdiv (F64.ofNat x) (F64.ofNat w)) (F64.ofNat ws)).trunc

/-- `resize` (src/main.go:45-59) in exact real arithmetic: the target grid
is stored row-major (`height` rows of `width` samples); the Go loops run
`0 ≤ x < width`, `0 ≤ y < height`, so non-positive dimensions give zero
iterations (`Int.toNat` of a non-positive number is 0), and the divisors
`width`, `height` are positive whenever a coordinate is computed. -/
def resize (img : Image) (width height : Int) : List (List Pixel) :=
  (List.range height.toNat).map fun y =>
    (List.range width.toNat).map fun x =>
      img.sample (sampleCoord x width.toNat img.width).toNat
        (sampleCoord y height.toNat img.height).toNat

/-- `resize` (src/main.go:45-59) with exact binary64 rounding of the two
float operations on each axis. -/
def resizeF (img : Image) (width height : Int) : List (List Pixel) :=
  (List.range height.toNat).map fun y =>
    (List.range width.toNat).map fun x =>
      img.sample (sampleCoordF x width.toNat img.width).toNat
        (sampleCoordF y height.toNat img.height).toNat

/-- The source image viewed as the row-major grid of its samples. -/
def sourceGrid (img : Image) : List (List Pixel) :=
  (List.range img.height).map fun y =>
    (List.range img.width).map fun x => img.sample x y

/-- `strconv.ParseUint(s, 10, 32)`: succeeds exactly on nonempty all-digit
strings (no sign, no underscores in base 10) whose value fits in 32 bits. -/
def parseUint32 (cs : List Char) : Option Nat :=
  if cs = [] then none
  else if cs.all (fun c => c.isDigit) then
    let v := cs.foldl (fun acc c => acc * 10 + (c.toNat - 48)) 0
    if v < 4294967296 then some v else none
  else none

/-- `strings.SplitN(value, "x", 2)`: `none` when no `x` occurs (one piece);
otherwise the part before the first `x` and everything after it. -/
def splitOnceX : List Char → Option (List Char × List Char)
  | [] => none
  | c :: cs =>
    if c = 'x' then some ([], cs)
    else (splitOnceX cs).map (fun p => (c :: p.1, p.2))

/-- `parseResize` (src/main.go:61-87): an empty spec returns the source
size unchanged; otherwise the spec is split on the first `x` and both parts
parsed as 32-bit unsigned integers, any failure yielding an error. -/
def parseResize (value : String) (ws hs : Nat) : Except String (Nat × Nat) :=
  if value.length < 1 then .ok (ws, hs)
  else
    match splitOnceX value.toList with
    | none => .error ("invalid resize value: " ++ value)
    | some (wPart, hPart) =>
      match parseUint32 wPart with
      | none => .error "invalid width"
      | some w =>
        match parseUint32 hPart with
        | none => .error "invalid height"
        | some h => .ok (w, h)

/-- Dimension resolution in `main` (src/main.go:152-163): `parseResize`
runs first and a parse error is fatal even when a scale is supplied;
afterwards a nonzero scale factor overwrites both dimensions with
`int(float64(size) * scale)` (exact rational reading of the product). -/
def resolveDims (value : String) (scale : ℚ) (img : Image) : Except String (Int × Int) :=
  match parseResize value img.width img.height with
  | .error e => .error e
  | .ok (w, h) =>
    if scale = 0 then .ok ((w : Int), (h : Int))
    else .ok (ratTrunc ((img.width : ℚ) * scale), ratTrunc ((img.height : ℚ) * scale))

/-- One output row of the assembly loop in `main` (src/main.go:174-181):
one glyph per pixel, `none` if any lookup panics. -/
def renderRow (charset : List Char) : List Pixel → Option (List Char)
  | [] => some []
  | p :: ps =>
    match lookupGlyph charset (luminance p), renderRow charset ps with
    | some c, some cs => some (c :: cs)
    | _, _ => none

/-- All output rows of the assembly loop in `main` (src/main.go:173-188). -/
def renderLines (charset : List Char) : List (List Pixel) → Option (List (List Char))
  | [] => some []
  | row :: rows =>
    match renderRow charset row, renderLines charset rows with
    | some l, some ls => some (l :: ls)
    | _, _ => none

/-- Join rendered rows with `"\n"` after every row except the last
(src/main.go:183-187): a separator between rows, never trailing. -/
def joinLines : List (List Char) → List Char
  | [] => []
  | [l] => l
  | l :: ls => l ++ '\n' :: joinLines ls

/-- The assembled output text of `main` (src/main.go:171-188). -/
def renderText (charset : List Char) (grid : List (List Pixel)) : Option String :=
  (renderLines charset grid).map (fun ls => String.mk (joinLines ls))

/-- The whole pipeline of `main` after decoding: resolve target dimensions,
resize (with float64 rounding), assemble text.  `Except.error` models a
panic (no output is produced). -/
def pipeline (value : String) (scale : ℚ) (img : Image) (charset : List Char) :
    Except String String :=
  match resolveDims value scale img with
  | .error e => .error e
  | .ok (w, h) =>
    match renderText charset (resizeF img w h) with
    | none => .error "index out of range"
    | some s => .ok s

/-! ### Concrete images used in witnesses and counterexamples -/

/-- An opaque black sample (`RGBA()` of opaque black). -/
def blackPixel : Pixel := ⟨0, 0, 0, 65535⟩

/-- A 4×4 all-black image. -/
def img44 : Image := ⟨4, 4, fun _ _ => blackPixel⟩

/-- A 4×4 image whose sample records its own coordinates. -/
def img4 : Image := ⟨4, 4, fun x y => ⟨x, y, 0, 65535⟩⟩

/-- A 90×1 image whose sample records its own column. -/
def img90 : Image := ⟨90, 1, fun x _ => ⟨x, 0, 0, 65535⟩⟩

/-- A 22×1 image whose sample records its own column. -/
def img22 : Image := ⟨22, 1, fun x _ => ⟨x, 0, 0, 65535⟩⟩

/-! ### Helper lemmas -/

theorem ratTrunc_of_nonneg (q : ℚ) (h : 0 ≤ q) : ratTrunc q = ⌊q⌋ :=
  if_pos h

theorem ratTrunc_natCast (n : ℕ) : ratTrunc (n : ℚ) = (n : ℤ) := by
  rw [ratTrunc_of_nonneg _ (by positivity), Int.floor_natCast]

theorem ratTrunc_nonpos (q : ℚ) (h : q ≤ 0) : ratTrunc q ≤ 0 := by
  unfold ratTrunc
  split
  · exact Int.floor_nonpos h
  · exact Int.ceil_le.mpr (by exact_mod_cast h)

theorem sampleCoord_eq (x w ws : ℕ) (hw : 0 < w) :
    sampleCoord x w ws = ((x * ws / w : ℕ) : ℤ) := by
  have hw' : (w : ℚ) ≠ 0 := Nat.cast_ne_zero.mpr hw.ne'
  have hq : (x : ℚ) / (w : ℚ) * (ws : ℚ) = ((x * ws : ℕ) : ℚ) / ((w : ℕ) : ℚ) := by
    push_cast; ring
  rw [sampleCoord, hq, ratTrunc_of_nonneg _ (by positivity)]
  have h0 : (0 : ℤ) ≤ ⌊((x * ws : ℕ) : ℚ) / ((w : ℕ) : ℚ)⌋ :=
    Int.floor_nonneg.mpr (by positivity)
  rw [← Int.toNat_of_nonneg h0, Int.floor_toNat, Nat.floor_div_eq_div]

theorem sampleCoord_self (x w : ℕ) (hx : x < w) : sampleCoord x w w = (x : ℤ) := by
  have hw : 0 < w := Nat.pos_of_ne_zero (by omega)
  rw [sampleCoord_eq x w w hw, Nat.mul_div_cancel x hw]

/-! ### Claim theorems -/

/-- C3: the luminance calculator ignores the alpha channel — two color
samples with the same RGB channel values and any two alpha values (e.g.
fully transparent vs. opaque) yield exactly the same luminance. -/
theorem luminance_ignores_alpha (r g b a a' : Nat) :
    luminance ⟨r, g, b, a⟩ = luminance ⟨r, g, b, a'⟩ := rfl

/-- C8: for a gray sample with equal channels `r = g = b = v`, the computed
luminance is exactly the normalized channel value `v / 65535`, because the
weights 0.299 + 0.587 + 0.114 sum to 1 (exact in rational arithmetic). -/
theorem luminance_gray (v a : Nat) :
    luminance ⟨v, v, v, a⟩ = (v : ℚ) / 65535 := by
  have h : ((299 * v + 587 * v + 114 * v : ℕ) : ℚ) = 1000 * (v : ℚ) := by
    push_cast; ring
  rw [luminance, h, div_eq_div_iff (by norm_num) (by norm_num)]
  ring

/-- C6: for all target dimensions `w, h ≥ 0` the sampler produces a grid of
exactly `h` rows each of `w` columns; a zero dimension gives an empty grid
(0 rows, resp. every row empty) because the corresponding loop runs zero
iterations, so no per-axis scaling computation (and no division by the zero
dimension) is ever evaluated. -/
theorem resize_shape (img : Image) (w h : Nat) :
    (resize img (w : Int) (h : Int)).length = h ∧
    ((resize img (w : Int) (h : Int)).all fun row => row.length == w) = true ∧
    resize img (w : Int) (0 : Int) = [] ∧
    ((resize img (0 : Int) (h : Int)).all fun row => row.isEmpty) = true := by
  refine ⟨by simp [resize], ?_, by simp [resize], ?_⟩
  · simp only [resize, List.all_eq_true, List.mem_map]
    rintro row ⟨y, _, rfl⟩
    simp
  · simp only [resize, List.all_eq_true, List.mem_map]
    rintro row ⟨y, _, rfl⟩
    simp [List.isEmpty_iff]

/-- C1 (code bug): the glyph mapper applies no clamp.  At luminance exactly
1 — produced in exact arithmetic by a pure white sample since the ramp
weights sum to 1 — the computed index equals the ramp length `N` (here 69
for the built-in "ascii" ramp, not `N - 1`), and the indexing
`charset[N]` is out of range (a runtime panic), where the claim requires
index `N - 1`. -/
theorem glyph_index_unclamped_at_white :
    asciiCharset.length = 69 ∧
    luminance ⟨65535, 65535, 65535, 0⟩ = 1 ∧
    glyphIndex 69 1 = 69 ∧
    lookupGlyph asciiCharset 1 = none := by
  have hlen : asciiCharset.length = 69 := by decide
  have hgi : glyphIndex 69 1 = 69 := by
    have h := ratTrunc_natCast 69
    rw [glyphIndex, mul_one]
    exact_mod_cast h
  refine ⟨hlen, ?_, hgi, ?_⟩
  · rw [luminance]; norm_num
  · show (if 0 ≤ glyphIndex asciiCharset.length 1 then
        asciiCharset[(glyphIndex asciiCharset.length 1).toNat]? else none) = none
    rw [hlen, hgi]
    rw [if_pos (by norm_num)]
    decide

/-- Shared helper: whenever the scale flag is nonzero, `resolveDims`
discards the parsed dimensions and returns the scale-derived ones
(src/main.go:158-163 runs after and overwrites the `parseResize` result). -/
theorem resolveDims_of_scale_ne (value : String) (s : ℚ) (img : Image) (w h : Nat)
    (hs : s ≠ 0) (hp : parseResize value img.width img.height = .ok (w, h)) :
    resolveDims value s img =
      .ok (ratTrunc ((img.width : ℚ) * s), ratTrunc ((img.height : ℚ) * s)) := by
  unfold resolveDims
  rw [hp]
  simp [hs]

/-- C2 (corrected): when both an explicit "WxH" spec and a nonzero scale
factor are supplied, the scale factor — not the explicit spec — determines
the target dimensions: the spec is parsed first (and a malformed spec is
still fatal), but its dimensions are overwritten by the scale branch. -/
theorem scale_overrides_explicit_spec (value : String) (s : ℚ) (img : Image) (w h : Nat)
    (hs : s ≠ 0) (hp : parseResize value img.width img.height = .ok (w, h)) :
    resolveDims value s img =
      .ok (ratTrunc ((img.width : ℚ) * s), ratTrunc ((img.height : ℚ) * s)) :=
  resolveDims_of_scale_ne value s img w h hs hp

/-- C2 witness: spec "3x3" parses to (3, 3), yet with scale 2 on a 4×4
image the resolver returns (8, 8). -/
theorem scale_overrides_explicit_spec_witness :
    (2 : ℚ) ≠ 0 ∧
    parseResize "3x3" img44.width img44.height = .ok (3, 3) ∧
    resolveDims "3x3" 2 img44 = .ok (8, 8) := by
  have hp : parseResize "3x3" img44.width img44.height = .ok (3, 3) := rfl
  have h := scale_overrides_explicit_spec "3x3" 2 img44 3 3 (by norm_num) hp
  have h8 : ratTrunc ((img44.width : ℚ) * 2) = 8 := by
    have hv : ((img44.width : ℕ) : ℚ) * 2 = ((8 : ℕ) : ℚ) := by norm_num [img44]
    rw [hv, ratTrunc_natCast]; norm_num
  have h8' : ratTrunc ((img44.height : ℚ) * 2) = 8 := by
    have hv : ((img44.height : ℕ) : ℚ) * 2 = ((8 : ℕ) : ℚ) := by norm_num [img44]
    rw [hv, ratTrunc_natCast]; norm_num
  rw [h8, h8'] at h
  exact ⟨by norm_num, hp, h⟩

/-- C2 counterexample: with spec "3x3" and scale 2 on a 4×4 image the
resolved dimensions are (8, 8), not the explicit spec's (3, 3) — the
explicit spec does not take precedence. -/
theorem scale_overrides_explicit_spec_cex :
    resolveDims "3x3" 2 img44 = .ok (8, 8) ∧
    resolveDims "3x3" 2 img44 ≠ .ok (3, 3) := by
  have h := resolveDims_of_scale_ne "3x3" 2 img44 3 3 (by norm_num) rfl
  have h8 : ratTrunc ((img44.width : ℚ) * 2) = 8 := by
    have hv : ((img44.width : ℕ) : ℚ) * 2 = ((8 : ℕ) : ℚ) := by norm_num [img44]
    rw [hv, ratTrunc_natCast]; norm_num
  have h8' : ratTrunc ((img44.height : ℚ) * 2) = 8 := by
    have hv : ((img44.height : ℕ) : ℚ) * 2 = ((8 : ℕ) : ℚ) := by norm_num [img44]
    rw [hv, ratTrunc_natCast]; norm_num
  rw [h8, h8'] at h
  refine ⟨h, ?_⟩
  rw [h]
  intro hcontra
  have := Except.ok.inj hcontra
  simp at this

/-- Shared helper: `strconv.ParseUint` fails on an empty or
non-all-digit string. -/
theorem parseUint32_eq_none (cs : List Char)
    (h : ¬ (cs ≠ [] ∧ cs.all (fun c => c.isDigit) = true)) :
    parseUint32 cs = none := by
  unfold parseUint32
  push_neg at h
  by_cases hnil : cs = []
  · rw [if_pos hnil]
  · rw [if_neg hnil, if_neg]
    exact fun hd => by simp [h hnil] at hd

/-- C9: a nonempty dimension spec that is missing the "x" separator, or
whose width or height part is not a (nonempty, all-digit) number, makes
`parseResize` fail with an error, and the whole pipeline then produces an
error instead of any output. -/
theorem malformed_spec_errors (value : String) (img : Image) (s : ℚ) (charset : List Char)
    (h0 : value.length ≠ 0)
    (hmal : splitOnceX value.toList = none ∨
      ∃ wPart hPart, splitOnceX value.toList = some (wPart, hPart) ∧
        (¬ (wPart ≠ [] ∧ wPart.all (fun c => c.isDigit) = true) ∨
         ¬ (hPart ≠ [] ∧ hPart.all (fun c => c.isDigit) = true))) :
    (∃ e, parseResize value img.width img.height = .error e) ∧
    (∃ e, pipeline value s img charset = .error e) := by
  have hperr : ∃ e, parseResize value img.width img.height = .error e := by
    unfold parseResize
    rw [if_neg (by omega)]
    rcases hmal with hnone | ⟨wp, hp', hsome, hbad⟩
    · simp only [hnone]; exact ⟨_, rfl⟩
    · simp only [hsome]
      rcases hbad with hw | hh
      · simp only [parseUint32_eq_none _ hw]; exact ⟨_, rfl⟩
      · cases hu : parseUint32 wp with
        | none => simp only [hu]; exact ⟨_, rfl⟩
        | some w => simp only [hu, parseUint32_eq_none _ hh]; exact ⟨_, rfl⟩
  obtain ⟨e, he⟩ := hperr
  refine ⟨⟨e, he⟩, ⟨e, ?_⟩⟩
  simp [pipeline, resolveDims, he]

/-- C9 witness: the spec "100" (no separator) makes `parseResize` and the
pipeline fail. -/
theorem malformed_spec_errors_witness :
    ("100" : String).length ≠ 0 ∧
    splitOnceX ("100" : String).toList = none ∧
    (∃ e, parseResize "100" img44.width img44.height = .error e) ∧
    (∃ e, pipeline "100" 0 img44 asciiCharset = .error e) := by
  have h0 : ("100" : String).length ≠ 0 := by decide
  have hn : splitOnceX ("100" : String).toList = none := by decide
  have h := malformed_spec_errors "100" img44 0 asciiCharset h0 (Or.inl hn)
  exact ⟨h0, hn, h.1, h.2⟩

/-- C10: a negative scale factor still fires the scale branch (it is gated
only on `scale != 0`): the resolved dimensions are non-positive, the
sampler produces an empty grid (its loops run zero iterations), and the
pipeline silently succeeds with empty text instead of reporting an
error. -/
theorem negative_scale_empty_output (img : Image) (charset : List Char) (value : String)
    (s : ℚ) (w h : Nat) (hs : s < 0)
    (hp : parseResize value img.width img.height = .ok (w, h)) :
    resolveDims value s img =
      .ok (ratTrunc ((img.width : ℚ) * s), ratTrunc ((img.height : ℚ) * s)) ∧
    ratTrunc ((img.width : ℚ) * s) ≤ 0 ∧
    ratTrunc ((img.height : ℚ) * s) ≤ 0 ∧
    resizeF img (ratTrunc ((img.width : ℚ) * s)) (ratTrunc ((img.height : ℚ) * s)) = [] ∧
    pipeline value s img charset = .ok "" := by
  have h1 := resolveDims_of_scale_ne value s img w h hs.ne hp
  have hwle : ratTrunc ((img.width : ℚ) * s) ≤ 0 :=
    ratTrunc_nonpos _ (mul_nonpos_iff.mpr (Or.inl ⟨by positivity, hs.le⟩))
  have hhle : ratTrunc ((img.height : ℚ) * s) ≤ 0 :=
    ratTrunc_nonpos _ (mul_nonpos_iff.mpr (Or.inl ⟨by positivity, hs.le⟩))
  have hE : resizeF img (ratTrunc ((img.width : ℚ) * s))
      (ratTrunc ((img.height : ℚ) * s)) = [] := by
    simp [resizeF, Int.toNat_eq_zero.mpr hhle]
  refine ⟨h1, hwle, hhle, hE, ?_⟩
  simp [pipeline, h1, hE, renderText, renderLines, joinLines]

/-- C10 witness: scale -1/2 on a 4×4 image silently yields empty text. -/
theorem negative_scale_empty_output_witness :
    (-1/2 : ℚ) < 0 ∧
    parseResize "" img44.width img44.height = .ok (4, 4) ∧
    pipeline "" (-1/2) img44 asciiCharset = .ok "" := by
  have hp : parseResize "" img44.width img44.height = .ok (4, 4) := rfl
  exact ⟨by norm_num, hp,
    (negative_scale_empty_output img44 asciiCharset "" (-1/2) 4 4 (by norm_num) hp).2.2.2.2⟩

/-- C5 (corrected, exact-arithmetic part): in exact real arithmetic the
sampler fills target coordinate `(x, y)` with the source sample at
`(⌊x·Ws/Wt⌋, ⌊y·Hs/Ht⌋)`; the float64 computation of the code agrees on
the 4×4→2×2 example but not in general (see the counterexample). -/
theorem resize_entry (img : Image) (wt ht x y : Nat) (hx : x < wt) (hy : y < ht) :
    ((resize img (wt : Int) (ht : Int)).getD y []).getD x defaultPixel =
      img.sample (x * img.width / wt) (y * img.height / ht) := by
  have hwt : 0 < wt := by omega
  have hht : 0 < ht := by omega
  have hrow : (resize img (wt : Int) (ht : Int)).getD y [] =
      List.map (fun x => img.sample (sampleCoord x wt img.width).toNat
        (sampleCoord y ht img.height).toNat) (List.range wt) := by
    unfold resize
    rw [Int.toNat_natCast, Int.toNat_natCast, List.getD_eq_getElem?_getD,
      List.getElem?_map, List.getElem?_range hy, Option.map_some', Option.getD_some]
  rw [hrow, List.getD_eq_getElem?_getD, List.getElem?_map, List.getElem?_range hx,
    Option.map_some', Option.getD_some,
    sampleCoord_eq x wt img.width hwt, sampleCoord_eq y ht img.height hht,
    Int.toNat_natCast, Int.toNat_natCast]

/-- C5 witness: scaling a 4×4 source to 2×2, target (0,0) samples source
(0,0) and target (1,1) samples source (2,2). -/
theorem resize_entry_witness :
    (0 < 2) ∧ (1 < 2) ∧
    ((resize img4 (2 : Int) (2 : Int)).getD 0 []).getD 0 defaultPixel = img4.sample 0 0 ∧
    ((resize img4 (2 : Int) (2 : Int)).getD 1 []).getD 1 defaultPixel = img4.sample 2 2 := by
  refine ⟨by norm_num, by norm_num, ?_, ?_⟩
  · have h := resize_entry img4 2 2 0 0 (by norm_num) (by norm_num)
    simpa using h
  · have h := resize_entry img4 2 2 1 1 (by norm_num) (by norm_num)
    simpa using h

/-- C5 counterexample: with the code's float64 arithmetic, resizing the
90×1 image to 10×1 makes target column 7 sample source column 62, while
the claimed formula `⌊x·Ws/Wt⌋ = ⌊7·90/10⌋` gives 63, a different
sample. -/
theorem resize_float_mismatch_cex :
    ((resizeF img90 (10 : Int) (1 : Int)).getD 0 []).getD 7 defaultPixel = img90.sample 62 0 ∧
    7 * img90.width / 10 = 63 ∧
    img90.sample 62 0 ≠ img90.sample 63 0 := by
  decide

/-- C7 (corrected, exact-arithmetic part): with no spec and no scale the
resolver returns the source size unchanged, and in exact real arithmetic
the sampler at the identity size returns the source grid pixel for pixel;
the code's float64 computation breaks the second part (see the
counterexample). -/
theorem identity_resize (img : Image) :
    parseResize "" img.width img.height = .ok (img.width, img.height) ∧
    resize img (img.width : Int) (img.height : Int) = sourceGrid img := by
  refine ⟨rfl, ?_⟩
  unfold resize sourceGrid
  rw [Int.toNat_natCast, Int.toNat_natCast]
  apply List.map_congr_left
  intro y hy
  apply List.map_congr_left
  intro x hx
  rw [List.mem_range] at hy hx
  rw [sampleCoord_self x img.width hx, sampleCoord_self y img.height hy,
    Int.toNat_natCast, Int.toNat_natCast]

/-- C7 counterexample: with the code's float64 arithmetic, the identity
resize of a 22×1 image is not pixel-identical to the source: target
column 15 samples source column 14. -/
theorem identity_resize_float_cex :
    parseResize "" img22.width img22.height = .ok (22, 1) ∧
    ((resizeF img22 (22 : Int) (1 : Int)).getD 0 []).getD 15 defaultPixel = img22.sample 14 0 ∧
    img22.sample 14 0 ≠ img22.sample 15 0 ∧
    resizeF img22 (img22.width : Int) (img22.height : Int) ≠ sourceGrid img22 := by
  exact ⟨rfl, by decide, by decide, by decide⟩

/-- Shared helper: a successful glyph lookup returns a ramp character. -/
theorem lookupGlyph_mem (charset : List Char) (lum : ℚ) (c : Char)
    (h : lookupGlyph charset lum = some c) : c ∈ charset := by
  have h' : (if 0 ≤ glyphIndex charset.length lum then
      charset[(glyphIndex charset.length lum).toNat]? else none) = some c := h
  split at h'
  · exact List.getElem?_mem h'
  · exact absurd h' (by simp)

/-- Shared helper: a successfully rendered row has one glyph per pixel,
all drawn from the ramp. -/
theorem renderRow_spec (charset : List Char) :
    ∀ (row : List Pixel) (l : List Char), renderRow charset row = some l →
      l.length = row.length ∧ ∀ c ∈ l, c ∈ charset := by
  intro row
  induction row with
  | nil =>
    intro l h
    simp only [renderRow, Option.some.injEq] at h
    subst h
    simp
  | cons p ps ih =>
    intro l h
    rw [renderRow] at h
    cases hg : lookupGlyph charset (luminance p) with
    | none => rw [hg] at h; simp at h
    | some c =>
      cases hr : renderRow charset ps with
      | none => rw [hg, hr] at h; simp at h
      | some cs =>
        rw [hg, hr] at h
        simp only [Option.some.injEq] at h
        subst h
        obtain ⟨h1, h2⟩ := ih cs hr
        refine ⟨by simp [h1], ?_⟩
        intro c' hc'
        rcases List.mem_cons.mp hc' with rfl | h'
        · exact lookupGlyph_mem charset (luminance p) c' hg
        · exact h2 c' h'

/-- Shared helper: successfully rendered lines are in one-to-one
correspondence with the grid rows: same number of lines, each of its
row's length, with all characters from the ramp. -/
theorem renderLines_spec (charset : List Char) (wt : Nat) :
    ∀ (grid : List (List Pixel)) (ls : List (List Char)),
      renderLines charset grid = some ls → (∀ row ∈ grid, row.length = wt) →
      ls.length = grid.length ∧ (∀ l ∈ ls, l.length = wt) ∧
      (∀ l ∈ ls, ∀ c ∈ l, c ∈ charset) := by
  intro grid
  induction grid with
  | nil =>
    intro ls h _
    simp only [renderLines, Option.some.injEq] at h
    subst h
    simp
  | cons row rows ih =>
    intro ls h hw
    rw [renderLines] at h
    cases hr : renderRow charset row with
    | none => rw [hr] at h; simp at h
    | some l =>
      cases hl : renderLines charset rows with
      | none => rw [hr, hl] at h; simp at h
      | some ls' =>
        rw [hr, hl] at h
        simp only [Option.some.injEq] at h
        subst h
        obtain ⟨ih1, ih2, ih3⟩ := ih ls' hl
          (fun r hmem => hw r (List.mem_cons_of_mem _ hmem))
        obtain ⟨hrl, hrc⟩ := renderRow_spec charset row l hr
        refine ⟨by simp [ih1], ?_, ?_⟩
        · intro l' hl'
          rcases List.mem_cons.mp hl' with rfl | h'
          · rw [hrl]; exact hw row (List.mem_cons_self _ _)
          · exact ih2 l' h'
        · intro l' hl' c hc
          rcases List.mem_cons.mp hl' with rfl | h'
          · exact hrc c hc
          · exact ih3 l' h' c hc

/-- Shared helper: length of the joined text — `ht` lines of `wt` glyphs
plus `ht - 1` separators. -/
theorem joinLines_length (wt : Nat) :
    ∀ ls : List (List Char), (∀ l ∈ ls, l.length = wt) →
      (joinLines ls).length = ls.length * wt + (ls.length - 1) := by
  intro ls
  induction ls with
  | nil => intro _; simp [joinLines]
  | cons l ls ih =>
    intro hw
    cases ls with
    | nil => simp [joinLines, hw l (by simp)]
    | cons l2 ls2 =>
      have hstep : joinLines (l :: l2 :: ls2) = l ++ '\n' :: joinLines (l2 :: ls2) := rfl
      have ihh := ih (fun l' h' => hw l' (List.mem_cons_of_mem _ h'))
      rw [hstep, List.length_append, List.length_cons, ihh,
        hw l (List.mem_cons_self _ _)]
      simp only [List.length_cons, Nat.add_mul, Nat.one_mul]
      omega

/-- Shared helper: the joined text contains exactly `ht - 1` separators
when no line contains the separator character. -/
theorem joinLines_count (ls : List (List Char)) (h : ∀ l ∈ ls, '\n' ∉ l) :
    (joinLines ls).count '\n' = ls.length - 1 := by
  induction ls with
  | nil => simp [joinLines]
  | cons l ls ih =>
    cases ls with
    | nil =>
      simp [joinLines, List.count_eq_zero.mpr (h l (by simp))]
    | cons l2 ls2 =>
      have hstep : joinLines (l :: l2 :: ls2) = l ++ '\n' :: joinLines (l2 :: ls2) := rfl
      have h0 : l.count '\n' = 0 := List.count_eq_zero.mpr (h l (by simp))
      have ihh := ih (fun l' h' => h l' (List.mem_cons_of_mem _ h'))
      rw [hstep, List.count_append, List.count_cons, h0, ihh]
      simp

/-- C4: a successfully assembled rendering of a grid with `ht ≥ 1` rows
each of `wt ≥ 1` pixels consists of exactly `ht` lines of `wt` glyphs
joined by `ht - 1` separators, none trailing: the text is the
newline-join of the lines, of total length `ht·wt + (ht - 1)` with
exactly `ht - 1` newline characters. -/
theorem render_shape (charset : List Char) (grid : List (List Pixel)) (wt ht : Nat)
    (lines : List (List Char))
    (hht : grid.length = ht) (hwt : ∀ row ∈ grid, row.length = wt)
    (h1 : 1 ≤ wt) (h2 : 1 ≤ ht) (hnl : '\n' ∉ charset)
    (hr : renderLines charset grid = some lines) :
    lines.length = ht ∧ (∀ l ∈ lines, l.length = wt) ∧
    renderText charset grid = some (String.mk (joinLines lines)) ∧
    (joinLines lines).length = ht * wt + (ht - 1) ∧
    (joinLines lines).count '\n' = ht - 1 := by
  obtain ⟨hlen, hlw, hlc⟩ := renderLines_spec charset wt grid lines hr hwt
  have hlines_len : lines.length = ht := by rw [hlen, hht]
  refine ⟨hlines_len, hlw, ?_, ?_, ?_⟩
  · rw [renderText, hr, Option.map_some']
  · rw [joinLines_length wt lines hlw, hlines_len]
  · rw [joinLines_count lines (fun l hl hmem => hnl (hlc l hl '\n' hmem)), hlines_len]

/-- C4 witness: a 3×2 all-black grid with ramp "AB" renders to exactly
"AAA\nAAA" — two lines of three glyphs, one separator, none trailing. -/
theorem render_shape_witness :
    renderText ['A', 'B'] (List.replicate 2 (List.replicate 3 blackPixel)) = some "AAA\nAAA" ∧
    (joinLines [['A', 'A', 'A'], ['A', 'A', 'A']]).length = 2 * 3 + (2 - 1) ∧
    (joinLines [['A', 'A', 'A'], ['A', 'A', 'A']]).count '\n' = 2 - 1 := by
  have hgA : lookupGlyph ['A', 'B'] (luminance blackPixel) = some 'A' := by
    have hl : luminance blackPixel = 0 := by norm_num [luminance, blackPixel]
    have hgi : glyphIndex (['A', 'B'] : List Char).length (luminance blackPixel) = 0 := by
      rw [hl, glyphIndex, mul_zero, ratTrunc_of_nonneg _ le_rfl, Int.floor_zero]
    show (if 0 ≤ glyphIndex (['A', 'B'] : List Char).length (luminance blackPixel) then
      (['A', 'B'] : List Char)[(glyphIndex (['A', 'B'] : List Char).length
        (luminance blackPixel)).toNat]? else none) = some 'A'
    rw [hgi, if_pos le_rfl]
    decide
  have hrow : renderRow ['A', 'B'] (List.replicate 3 blackPixel) = some ['A', 'A', 'A'] := by
    simp [renderRow, hgA, List.replicate]
  have hlines : renderLines ['A', 'B'] (List.replicate 2 (List.replicate 3 blackPixel)) =
      some [['A', 'A', 'A'], ['A', 'A', 'A']] := by
    have hrow' : renderRow ['A', 'B'] [blackPixel, blackPixel, blackPixel] =
        some ['A', 'A', 'A'] := by simpa [List.replicate] using hrow
    simp [renderLines, List.replicate, hrow']
  have h := render_shape ['A', 'B'] (List.replicate 2 (List.replicate 3 blackPixel)) 3 2
    [['A', 'A', 'A'], ['A', 'A', 'A']] (by decide)
    (by decide) (by norm_num) (by norm_num) (by decide) hlines
  refine ⟨?_, h.2.2.2.1, h.2.2.2.2⟩
  rw [h.2.2.1]
  rfl
